import Mathlib

/-!
Shallow embedding of the url-pattern crate (src/tokenizer.rs, src/parser.rs,
src/lib.rs): a compiler from WHATWG URL Pattern strings to
regular-expression strings.

Rust control-flow aborts (panic!, unimplemented!, todo!, failed assert!) are
modelled as the explicit RunError.panic outcome, and an out-of-bounds slice
access (tokens[index] with index past the end) as RunError.oob, so that the
embedded functions are total and every abort is observable as a value.

Naming note: the source field and variable named "prefix" is rendered as
"pfx" throughout (the identifier prefix is reserved notation in Lean).
-/

namespace UrlPattern

/-- The crate's error enum. Its definition is not part of the provided
source files (tokenizer.rs refers to crate::ParseError, whose declaration
is missing); modelled from the spec: section 7 lists the four error kinds
UnexpectedEnd, ParenthesesMismatch (spelled ParenthesesMissmatch at the
single use site in tokenizer.rs), MissingClosingCurly and DuplicateName. -/
inductive ParseError where
  | UnexpectedEnd
  | ParenthesesMissmatch
  | MissingClosingCurly
  | DuplicateName
deriving DecidableEq, Repr

/-- Outcome of running a piece of the embedded Rust code: a returned
ParseError value, a Rust process abort (panic!, unimplemented!, todo!,
assert!) with its message, or an out-of-bounds slice index. -/
inductive RunError where
  | err : ParseError → RunError
  | panic : String → RunError
  | oob
deriving DecidableEq, Repr

/-- tokenizer.rs, enum Token. -/
inductive Token where
  | Open
  | Close
  | RegExp : String → Token
  | Name : String → Token
  | Char : Char → Token
  | EscapedChar : Char → Token
  | Plus
  | QuestionMark
  | Asterisk
  | End
  | InvalidChar
deriving DecidableEq, Repr

/-- tokenizer.rs, enum Policy (the policy parameter is unused by tokenize). -/
inductive Policy where
  | Strict
  | Lenient
deriving DecidableEq, Repr

/-- lib.rs, struct Options. The source field prefix is rendered pfx. -/
structure Options where
  delimiter : Option Char
  pfx : Option Char
  ignore_case : Bool
deriving DecidableEq, Repr

/-- parser.rs, enum Modifier. -/
inductive Modifier where
  | Optional
  | ZeroOrMore
  | OneOrMore
deriving DecidableEq, Repr

/-- parser.rs, impl fmt::Display for Modifier. -/
def Modifier.render : Modifier → String
  | .Optional => "?"
  | .ZeroOrMore => "*"
  | .OneOrMore => "+"

/-- parser.rs, enum Part. The source fields prefix are rendered pfx. -/
inductive Part where
  | FixedText : String → Option Modifier → Part
  | RegExp : String → Part
  | SegmentWildcard : String → Option Modifier → String → String → Part
  | FullWildcard : String → Option Modifier → String → String → Part
deriving DecidableEq, Repr

/-- tokenizer.rs, the character range test in the ':' arm of tokenize:
ASCII letters A-Z and a-z. -/
def isNameCodePoint (c : Char) : Bool :=
  ('A' ≤ c && c ≤ 'Z') || ('a' ≤ c && c ≤ 'z')

/-- Rust's char::is_ascii: the code point is at most 0x7F. -/
def charIsAscii (c : Char) : Bool :=
  c.toNat ≤ 127


/-- tokenizer.rs, the inner while-let loop of the '(' arm of tokenize:
consume characters tracking parenthesis nesting depth until the depth
returns to zero (the closing parenthesis is not captured); a non-ASCII
code point hits the source's todo! abort; exhausting the input with a
nonzero depth is the ParenthesesMissmatch error. -/
def scanRegexp : List Char → Nat → String → Except RunError (String × List Char)
  | [], _, _ => .error (.err .ParenthesesMissmatch)
  | c :: rest, depth, acc =>
    if charIsAscii c = false then .error (.panic "todo: non-ascii code point in regexp group")
    else if c = '(' then scanRegexp rest (depth + 1) (acc.push c)
    else if c = ')' then
      if depth - 1 = 0 then .ok (acc, rest)
      else scanRegexp rest (depth - 1) (acc.push c)
    else scanRegexp rest depth (acc.push c)

/-- tokenizer.rs, fn tokenize, main while-let loop over the input's
characters, with the trailing End token appended on exhaustion. The '\\'
arm is the source's unimplemented! abort. The fuel argument only bounds
the iteration count for the termination checker: every iteration consumes
at least one character, so the fuel supplied by tokenize below (input
length plus one) never runs out. -/
def tokenizeLoop : Nat → List Char → Except RunError (List Token)
  | 0, _ => .error (.panic "out of fuel")
  | _ + 1, [] => .ok [Token.End]
  | fuel + 1, c :: rest =>
    if c = '*' then (tokenizeLoop fuel rest).map (Token.Asterisk :: ·)
    else if c = '+' then (tokenizeLoop fuel rest).map (Token.Plus :: ·)
    else if c = '?' then (tokenizeLoop fuel rest).map (Token.QuestionMark :: ·)
    else if c = '\\' then .error (.panic "unimplemented: EscapedChar")
    else if c = '{' then (tokenizeLoop fuel rest).map (Token.Open :: ·)
    else if c = '}' then (tokenizeLoop fuel rest).map (Token.Close :: ·)
    else if c = ':' then
      (tokenizeLoop fuel (rest.dropWhile isNameCodePoint)).map
        (Token.Name (String.mk (rest.takeWhile isNameCodePoint)) :: ·)
    else if c = '(' then
      match scanRegexp rest 1 "" with
      | .error e => .error e
      | .ok (r, rest') => (tokenizeLoop fuel rest').map (Token.RegExp r :: ·)
    else (tokenizeLoop fuel rest).map (Token.Char c :: ·)

/-- tokenizer.rs, pub fn tokenize (the policy argument is unused). -/
def tokenize (input : String) (_policy : Policy) : Except RunError (List Token) :=
  tokenizeLoop (input.data.length + 1) input.data

/-! ## Parser (parser.rs)

The Rust Parser struct holds the token slice, a cursor index, the pending
fixed value and the part list. The embedding threads the still-unconsumed
suffix of the token list in place of the index (reading tokens[index] on a
slice whose end has been passed is the RunError.oob outcome), plus the
pending fixed value and part list as explicit state. -/

/-- The closure matches!(token, Token::Char(_)) of parser.rs. -/
def isCharTok : Token → Bool
  | .Char _ => true
  | _ => false

/-- The closure matches!(token, Token::Name(_)) of parser.rs. -/
def isNameTok : Token → Bool
  | .Name _ => true
  | _ => false

/-- The closure matches!(token, Token::RegExp(_)) of parser.rs. -/
def isRegExpTok : Token → Bool
  | .RegExp _ => true
  | _ => false

/-- The closure matches!(token, Token::Asterisk) of parser.rs. -/
def isAsteriskTok : Token → Bool
  | .Asterisk => true
  | _ => false

/-- The closure matches!(token, Token::EscapedChar(_)) of parser.rs. -/
def isEscapedCharTok : Token → Bool
  | .EscapedChar _ => true
  | _ => false

/-- The closure matches!(token, Token::Open) of parser.rs. -/
def isOpenTok : Token → Bool
  | .Open => true
  | _ => false

/-- The closure matches!(token, Token::Close) of parser.rs. -/
def isCloseTok : Token → Bool
  | .Close => true
  | _ => false

/-- The closure matches!(token, Token::End) of parser.rs. -/
def isEndTok : Token → Bool
  | .End => true
  | _ => false

/-- parser.rs, fn try_consume_token: look at tokens[index]; if the matcher
accepts it, consume it and return it, otherwise leave the cursor alone. -/
def tryConsumeToken (m : Token → Bool) : List Token → Except RunError (Option Token × List Token)
  | [] => .error .oob
  | t :: rest => if m t then .ok (some t, rest) else .ok (none, t :: rest)

/-- parser.rs, fn try_consume_modifier. -/
def tryConsumeModifier : List Token → Except RunError (Option Modifier × List Token)
  | [] => .error .oob
  | .QuestionMark :: rest => .ok (some .Optional, rest)
  | .Plus :: rest => .ok (some .OneOrMore, rest)
  | .Asterisk :: rest => .ok (some .ZeroOrMore, rest)
  | t :: rest => .ok (none, t :: rest)

/-- parser.rs, fn try_consume_regexp_or_wildcard. -/
def tryConsumeRegexpOrWildcard (nameToken : Option Token) (ts : List Token) :
    Except RunError (Option Token × List Token) := do
  let (token, ts1) ← tryConsumeToken isRegExpTok ts
  if nameToken.isNone && token.isNone then
    tryConsumeToken isAsteriskTok ts1
  else
    .ok (token, ts1)

/-- parser.rs, fn consume_text: greedily consume a run of Char/EscapedChar
tokens into a string, stopping at the first other token. -/
def consumeText : List Token → Except RunError (String × List Token)
  | [] => .error .oob
  | .Char c :: rest =>
    match consumeText rest with
    | .ok (s, r) => .ok (String.singleton c ++ s, r)
    | .error e => .error e
  | .EscapedChar c :: rest =>
    match consumeText rest with
    | .ok (s, r) => .ok (String.singleton c ++ s, r)
    | .error e => .error e
  | t :: rest => .ok ("", t :: rest)

/-- parser.rs, fn parse, step 4 substeps 1-3 (lines 87-103): resolve the
candidate prefix character against Options.prefix; a non-empty candidate
that is configured-prefix-mismatched is appended to the pending fixed
value and replaced by the empty string, otherwise it is kept. Returns the
updated (pending fixed value, prefix). -/
def resolveCandidatePfx (options : Options) (pending : String) (pfx : String) : String × String :=
  if pfx ≠ "" then
    match options.pfx with
    | some optPfx =>
      if pfx ≠ optPfx.toString then (pending ++ pfx, "")
      else (pending, pfx)
    | none => (pending, pfx)
  else (pending, pfx)

/-- parser.rs, fn maybe_add_part_from_pending_fixed_value. -/
def maybeAddPartFromPendingFixedValue (pending : String) (parts : List Part) :
    String × List Part :=
  if pending = "" then (pending, parts)
  else ("", parts ++ [Part.FixedText pending none])

/-- parser.rs, the literal marker string used for a missing regexp token. -/
def segmentWildcardMarker : String := "<segment wildcard>"

/-- parser.rs, the literal marker string used for a bare asterisk token. -/
def fullWildcardMarker : String := "<full wildcard>"

/-- parser.rs, fn add_part steps 6-9 (lines 282-291): the regexp value of
the regexp-or-wildcard token - a wildcard marker when absent or a bare
asterisk, otherwise the RegExp token's stored value. -/
def regexpValueOf : Option Token → Except RunError String
  | none => pure segmentWildcardMarker
  | some Token.Asterisk => pure fullWildcardMarker
  | some (Token.RegExp value) => pure value
  | some _ => .error (.panic "invalid regexp_or_wildcard token")

/-- parser.rs, fn add_part steps 13-15 (lines 298-310): the part's name -
the name token's value when present, otherwise the fixed fallback label
"1" (asserting that a regexp-or-wildcard token is present). -/
def partNameOf (name rw : Option Token) : Except RunError String :=
  match name with
  | some (Token.Name n) => pure n
  | some _ => .error (.panic "invalid name token")
  | none =>
    if rw.isSome then pure "1"
    else .error (.panic "assertion failed: regexp_or_wildcard.is_some()")

/-- parser.rs, fn add_part, acting on the (pending fixed value, part list)
state. Note that in the final classification (source lines 319-333) a
regexp value that is neither wildcard marker - i.e. a custom regexp
fragment - falls through both branches and no part is appended. -/
def addPart (pending : String) (parts : List Part) (pfx : String)
    (name rw : Option Token) (suffix : String) (modifier : Option Modifier) :
    Except RunError (String × List Part) :=
  if name.isNone && rw.isNone && modifier.isNone then
    if suffix ≠ "" then .error (.panic "assertion failed: suffix.is_empty()")
    else .ok (pending ++ pfx, parts)
  else
    let (pending1, parts1) := maybeAddPartFromPendingFixedValue pending parts
    if name.isNone && rw.isNone then
      if suffix ≠ "" then .error (.panic "assertion failed: suffix.is_empty()")
      else if pfx = "" then .ok (pending1, parts1)
      else .ok (pending1, parts1 ++ [Part.FixedText pfx modifier])
    else do
      let regexpValue ← regexpValueOf rw
      let partName ← partNameOf name rw
      if regexpValue = segmentWildcardMarker then
        .ok (pending1, parts1 ++ [Part.SegmentWildcard partName modifier pfx suffix])
      else if regexpValue = fullWildcardMarker then
        .ok (pending1, parts1 ++ [Part.FullWildcard partName modifier pfx suffix])
      else
        .ok (pending1, parts1)

/-- parser.rs, fn parse: the main loop, one fuel unit per iteration. Every
iteration that continues the loop consumes at least one token, so the fuel
supplied by the parse entry point below never runs out. A successful run
returns the final (pending fixed value, part list) state. -/
def parseLoop (options : Options) : Nat → List Token → String → List Part →
    Except RunError (String × List Part)
  | 0, _, _, _ => .error (.panic "out of fuel")
  | fuel + 1, ts, pending, parts => do
    -- 1. try to consume a "char" token
    let (charToken, ts1) ← tryConsumeToken isCharTok ts
    -- 2. try to consume a "name" token
    let (nameToken, ts2) ← tryConsumeToken isNameTok ts1
    -- 3. try to consume a regexp or wildcard token
    let (rw, ts3) ← tryConsumeRegexpOrWildcard nameToken ts2
    -- 4. placeholder occurrence
    if nameToken.isSome || rw.isSome then
      let pfx0 : String ← match charToken with
        | some (Token.Char c) => pure c.toString
        | some _ => Except.error (RunError.panic "unexpected token")
        | none => pure ""
      let (pending1, pfx1) := resolveCandidatePfx options pending pfx0
      let (pending2, parts2) := maybeAddPartFromPendingFixedValue pending1 parts
      let (modifier, ts4) ← tryConsumeModifier ts3
      let (pending3, parts3) ← addPart pending2 parts2 pfx1 nameToken rw "" modifier
      parseLoop options fuel ts4 pending3 parts3
    else
      -- 5. fixed token: the char token, or else an escaped-char token
      let (fixedToken, ts4) ← match charToken with
        | some t => pure ((some t : Option Token), ts3)
        | none => tryConsumeToken isEscapedCharTok ts3
      match fixedToken with
      | some (Token.Char v) => parseLoop options fuel ts4 (pending.push v) parts
      | some (Token.EscapedChar v) => parseLoop options fuel ts4 (pending.push v) parts
      | some _ => Except.error (RunError.panic "impossible")
      | none => do
        -- 8./9. open token: a brace group
        let (openTok, ts5) ← tryConsumeToken isOpenTok ts4
        if openTok.isSome then do
          let (gpfx, ts6) ← consumeText ts5
          let (gname, ts7) ← tryConsumeToken isNameTok ts6
          let (grw, ts8) ← tryConsumeRegexpOrWildcard gname ts7
          let (gsuffix, ts9) ← consumeText ts8
          let (closeTok, ts10) ← tryConsumeToken isCloseTok ts9
          if closeTok.isNone then Except.error (RunError.panic "missing close token")
          else do
            let (modifier, ts11) ← tryConsumeModifier ts10
            let (pending', parts') ← addPart pending parts gpfx gname grw gsuffix modifier
            parseLoop options fuel ts11 pending' parts'
        else do
          -- final: flush pending fixed value and require the End token
          let (pending', parts') := maybeAddPartFromPendingFixedValue pending parts
          let (endTok, _ts6) ← tryConsumeToken isEndTok ts5
          if endTok.isNone then Except.error (RunError.panic "expected end")
          else .ok (pending', parts')

/-- parser.rs, Parser::new followed by Parser::parse: run the loop from the
start of the token list with empty pending fixed value and part list. -/
def parse (options : Options) (ts : List Token) : Except RunError (String × List Part) :=
  parseLoop options (ts.length + 1) ts "" []

/-! ## Regular-expression generator (lib.rs) -/

/-- lib.rs, fn escape_regexp: replace every "/" with an escaped "\/"
(the incomplete escaping of the source, which touches no other
metacharacter). -/
def escape_regexp (s : String) : String :=
  String.join (s.data.map fun c => if c = '/' then "\\/" else c.toString)

/-- lib.rs, fn generate_segment_wildcard_regexp. -/
def generate_segment_wildcard_regexp (opts : Options) : String :=
  "[^" ++ escape_regexp (match opts.delimiter with
    | none => ""
    | some chr => chr.toString) ++ "]+?"

/-- lib.rs, fn full_wildcard_regexp. -/
def full_wildcard_regexp : String := ".*"

/-- lib.rs, fn generate_regexp, the shared placeholder-rendering tail of
the per-part loop (lines 89-117): bracket an already-resolved fragment
with the already-escaped prefix and suffix according to the modifier. -/
def renderPlaceholder (modifier : Option Modifier) (regexp pfx suffix : String) : String :=
  if pfx = "" && suffix = "" then
    match modifier with
    | none => "(" ++ regexp ++ ")"
    | some Modifier.Optional => "(" ++ regexp ++ ")" ++ Modifier.Optional.render
    | some m => "((?:" ++ regexp ++ ")" ++ m.render ++ ")"
  else
    match modifier with
    | none => "(?:" ++ pfx ++ "(" ++ regexp ++ ")" ++ suffix ++ ")"
    | some Modifier.Optional =>
      "(?:" ++ pfx ++ "(" ++ regexp ++ ")" ++ suffix ++ ")" ++ Modifier.Optional.render
    | some Modifier.ZeroOrMore =>
      "(?:" ++ pfx ++ "((?:" ++ regexp ++ ")(?:" ++ suffix ++ pfx ++ "(?:" ++ regexp ++
        "))*)" ++ suffix ++ ")?"
    | some Modifier.OneOrMore =>
      "(?:" ++ pfx ++ "((?:" ++ regexp ++ ")(?:" ++ suffix ++ pfx ++ "(?:" ++ regexp ++
        "))*)" ++ suffix ++ ")"

/-- lib.rs, fn generate_regexp, one iteration of the per-part loop: the
string the loop appends to the result for the given part. The RegExp arm
is the source's todo! abort. -/
def partString (opts : Options) : Part → Except RunError String
  | .FixedText value modifier =>
    .ok (match modifier with
      | some m => "(?:" ++ escape_regexp value ++ ")" ++ m.render
      | none => escape_regexp value)
  | .SegmentWildcard _ modifier pfx suffix =>
    .ok (renderPlaceholder modifier (generate_segment_wildcard_regexp opts)
      (escape_regexp pfx) (escape_regexp suffix))
  | .FullWildcard _ modifier pfx suffix =>
    .ok (renderPlaceholder modifier full_wildcard_regexp
      (escape_regexp pfx) (escape_regexp suffix))
  | .RegExp _ => .error (.panic "todo: generate for a regexp part")

/-- lib.rs, fn generate_regexp, the loop over the parts. -/
def generateParts (opts : Options) : List Part → Except RunError String
  | [] => .ok ""
  | p :: ps => do
    let s ← partString opts p
    let rest ← generateParts opts ps
    .ok (s ++ rest)

/-- lib.rs, fn generate_regexp: a caret, the per-part strings, a dollar. -/
def generate_regexp (opts : Options) (parts : List Part) : Except RunError String :=
  (generateParts opts parts).map fun s => "^" ++ s ++ "$"

/-- lib.rs, pub fn regexp_for_pattern: tokenize, parse, generate. The
source wrapper passes the tokenizer's un-unwrapped Result straight to
Parser::new; the composition of the three stages here propagates a stage's
error, modelled from the spec: section 7, the composing entry point stops
at the first error and returns it unchanged. -/
def regexp_for_pattern (input : String) (options : Options) : Except RunError String := do
  let tokens ← tokenize input Policy.Strict
  let (_, parts) ← parse options tokens
  generate_regexp options parts

/-- Convenience composition of the first two stages, used to state claims
about the part list a pattern string parses to. -/
def patternParts (input : String) (options : Options) :
    Except RunError (String × List Part) := do
  let tokens ← tokenize input Policy.Strict
  parse options tokens

/-! ## Helper lemmas -/

@[simp] theorem except_bind_ok {ε α β : Type} (a : α) (f : α → Except ε β) :
    (Except.ok a >>= f) = f a := rfl

@[simp] theorem except_bind_err {ε α β : Type} (e : ε) (f : α → Except ε β) :
    ((Except.error e : Except ε α) >>= f) = Except.error e := rfl

@[simp] theorem except_map_ok {ε α β : Type} (a : α) (f : α → β) :
    ((Except.ok a : Except ε α).map f) = Except.ok (f a) := rfl

@[simp] theorem except_pure {ε α : Type} (a : α) :
    (pure a : Except ε α) = Except.ok a := rfl

theorem string_push_mk (s : String) (c : Char) (cs : List Char) :
    s.push c ++ String.mk cs = s ++ String.mk (c :: cs) := by
  cases s with
  | mk d =>
    show String.mk ((d ++ [c]) ++ cs) = String.mk (d ++ (c :: cs))
    rw [List.append_assoc]
    rfl

theorem string_mk_data (s : String) : String.mk s.data = s := by
  cases s
  rfl

theorem string_empty_append (s : String) : "" ++ s = s := by
  cases s
  rfl

/-! ## Claim theorems -/

/-- Claim C1 (code bug): the spec requires compiling "/:foo(bar)?" with
delimiter '/' and prefix '/' to "^(?:\/(bar))?$", the custom-regexp
placeholder being emitted as a Part and rendered with its stored fragment.
The code instead silently drops the placeholder - add_part (parser.rs
lines 319-333) appends a part only for the two wildcard marker values, and
generate_regexp's Part::RegExp arm is todo!() - so the whole pattern
compiles to "^$". -/
theorem custom_regexp_placeholder_dropped :
    regexp_for_pattern "/:foo(bar)?" ⟨some '/', some '/', false⟩ = .ok "^$" ∧
    patternParts "/:foo(bar)?" ⟨some '/', some '/', false⟩ = .ok ("", []) ∧
    ("^$" : String) ≠ "^(?:\\/(bar))?$" := by
  refine ⟨rfl, rfl, ?_⟩
  decide

/-- Claim C2 (code bug): the spec requires rejecting duplicate placeholder
names with DuplicateName, but the check (parser.rs line 312-313) is a
TODO: the pattern "/:foo/:foo" parses to two parts both named "foo" and
compilation succeeds with a regular-expression string. -/
theorem duplicate_names_accepted :
    patternParts "/:foo/:foo" ⟨some '/', some '/', false⟩
      = .ok ("", [Part.SegmentWildcard "foo" none "/" "",
                  Part.SegmentWildcard "foo" none "/" ""]) ∧
    regexp_for_pattern "/:foo/:foo" ⟨some '/', some '/', false⟩
      = .ok "^(?:\\/([^\\/]+?))(?:\\/([^\\/]+?))$" :=
  ⟨rfl, rfl⟩

/-- Claim C3 (code bug): the spec requires a backslash followed by a
character to tokenize to an EscapedChar token (and a trailing backslash to
the UnexpectedEnd error), but the '\\' arm of tokenize (tokenizer.rs lines
46-49) is unimplemented!: every input containing a backslash aborts. -/
theorem backslash_escape_unimplemented :
    tokenize "a\\b" Policy.Strict = .error (.panic "unimplemented: EscapedChar") :=
  rfl

/-- Claim C4 (code bug): the spec requires an unterminated brace group such
as "\x7babc" to fail with the MissingClosingCurly error value, but the
parser (parser.rs lines 153-156) aborts via panic!("missing close token")
instead of returning an error. -/
theorem unclosed_brace_group_panics :
    regexp_for_pattern "\x7babc" ⟨some '/', some '/', false⟩
      = .error (.panic "missing close token") :=
  rfl

/-- Claim C8 (code bug): for an unclosed custom-regexp group tokenize does
return the ParenthesesMissmatch error, but the claim's second half - that
whenever the depth returns to zero the RegExp token's payload is the
captured text - fails on non-ASCII content: the group scanner (tokenizer.rs
lines 79-82) hits todo!() on any non-ASCII code point, so "(é)" aborts
instead of producing a RegExp token with payload "é". -/
theorem nonascii_in_regexp_group_todo :
    tokenize "(é)" Policy.Strict
      = .error (.panic "todo: non-ascii code point in regexp group") ∧
    tokenize "(abc" Policy.Strict = .error (.err .ParenthesesMissmatch) :=
  ⟨rfl, rfl⟩

/-- Claim C5, counterexample: with Options.prefix unset, the pattern
"x:foo" still keeps the non-empty candidate prefix "x" as the emitted
placeholder Part's prefix (the pending-fixed-value buffer stays empty, so
no FixedText part is produced), contradicting the claim that a candidate
prefix differing from an unset Options.prefix is reclassified as literal
text with the Part's prefix left empty. -/
theorem pfx_kept_when_options_pfx_unset :
    patternParts "x:foo" ⟨none, none, false⟩
      = .ok ("", [Part.SegmentWildcard "foo" none "x" ""]) ∧
    ([Part.SegmentWildcard "foo" none "x" ""]
      ≠ [Part.FixedText "x" none, Part.SegmentWildcard "foo" none "" ""]) := by
  refine ⟨rfl, ?_⟩
  decide

/-- Claim C5 (amended): in parse step 4 the candidate prefix is appended to
the pending-fixed-value buffer (and the emitted placeholder's prefix
emptied) exactly when it is non-empty and Options.prefix is configured to
some character it differs from; when it is empty, equal to the configured
prefix character, or Options.prefix is unset, it is kept as the
placeholder's prefix. -/
theorem resolveCandidatePfx_classification (options : Options) (pending pfx : String) :
    (∀ c, options.pfx = some c → pfx ≠ "" → pfx ≠ c.toString →
      resolveCandidatePfx options pending pfx = (pending ++ pfx, "")) ∧
    ((pfx = "" ∨ options.pfx = none ∨ ∃ c, options.pfx = some c ∧ pfx = c.toString) →
      resolveCandidatePfx options pending pfx = (pending, pfx)) := by
  constructor
  · intro c hc h1 h2
    simp [resolveCandidatePfx, h1, hc, h2]
  · intro h
    rcases h with h | h | ⟨c, hc, h⟩
    · simp [resolveCandidatePfx, h]
    · simp [resolveCandidatePfx, h]
    · simp [resolveCandidatePfx, hc, h]

/-- Witness for the amended claim C5 at concrete inputs: configured prefix
'/', candidate "x" over pending "a" is reclassified as literal text, and
candidate "/" is kept. -/
theorem resolveCandidatePfx_classification_witness :
    resolveCandidatePfx ⟨none, some '/', false⟩ "a" "x" = ("ax", "") ∧
    resolveCandidatePfx ⟨none, some '/', false⟩ "a" "/" = ("a", "/") :=
  ⟨(resolveCandidatePfx_classification ⟨none, some '/', false⟩ "a" "x").1 '/' rfl
      (by decide) (by decide),
   (resolveCandidatePfx_classification ⟨none, some '/', false⟩ "a" "/").2
      (Or.inr (Or.inr ⟨'/', rfl, rfl⟩))⟩

/-- Claim C7, counterexample: for a segment-wildcard part with prefix "/",
no suffix and the OneOrMore modifier (delimiter '/'), the generator emits
non-capturing groups around the fragment occurrences,
"^(?:\/((?:[^\/]+?)(?:\/(?:[^\/]+?))*))$", not the claimed rendering
"^(?:\/(([^\/]+?)(?:\/([^\/]+?))*))$" whose inner fragment occurrences are
capturing groups. -/
theorem repeat_render_inner_groups_noncapturing :
    generate_regexp ⟨some '/', some '/', false⟩
        [Part.SegmentWildcard "a" (some Modifier.OneOrMore) "/" ""]
      = .ok "^(?:\\/((?:[^\\/]+?)(?:\\/(?:[^\\/]+?))*))$" ∧
    ("^(?:\\/((?:[^\\/]+?)(?:\\/(?:[^\\/]+?))*))$" : String)
      ≠ "^(?:\\/(([^\\/]+?)(?:\\/([^\\/]+?))*))$" := by
  refine ⟨rfl, ?_⟩
  decide

/-- Claim C7 (amended): for every placeholder with a non-empty rendered
prefix or suffix, OneOrMore renders as one capturing group holding an
initial non-capturing fragment occurrence followed by zero or more
suffix+prefix+fragment repetitions - with the fragment occurrences wrapped
in non-capturing groups - and ZeroOrMore renders as the identical string
with a trailing question mark. -/
theorem renderPlaceholder_repeat_shape (regexp pfx suffix : String)
    (h : pfx ≠ "" ∨ suffix ≠ "") :
    renderPlaceholder (some Modifier.OneOrMore) regexp pfx suffix
      = "(?:" ++ pfx ++ "((?:" ++ regexp ++ ")(?:" ++ suffix ++ pfx ++ "(?:" ++ regexp ++
          "))*)" ++ suffix ++ ")" ∧
    renderPlaceholder (some Modifier.ZeroOrMore) regexp pfx suffix
      = renderPlaceholder (some Modifier.OneOrMore) regexp pfx suffix ++ "?" := by
  have hcond : (pfx = "" && suffix = "") = false := by
    rcases h with h | h <;> simp [h]
  constructor
  · simp [renderPlaceholder, hcond]
  · simp only [renderPlaceholder, hcond, Bool.false_eq_true, if_false]
    rw [show (")?" : String) = ")" ++ "?" from rfl]
    rw [← String.append_assoc]

/-- Witness for the amended claim C7 at concrete inputs: fragment "f",
prefix "/", empty suffix. -/
theorem renderPlaceholder_repeat_shape_witness :
    renderPlaceholder (some Modifier.OneOrMore) "f" "/" ""
      = "(?:" ++ "/" ++ "((?:" ++ "f" ++ ")(?:" ++ "" ++ "/" ++ "(?:" ++ "f" ++
          "))*)" ++ "" ++ ")" ∧
    renderPlaceholder (some Modifier.ZeroOrMore) "f" "/" ""
      = renderPlaceholder (some Modifier.OneOrMore) "f" "/" "" ++ "?" :=
  renderPlaceholder_repeat_shape "f" "/" "" (Or.inl (by decide))

/-- A pattern character that hits none of the eight special arms of the
tokenize loop and therefore always becomes a plain Char token. -/
def plainChar (c : Char) : Bool :=
  !(c = '*' || c = '+' || c = '?' || c = '\\' || c = '{' || c = '}' || c = ':' || c = '(')

theorem tokenizeLoop_plain : ∀ (cs : List Char) (fuel : Nat), cs.length < fuel →
    (∀ c ∈ cs, plainChar c = true) →
    tokenizeLoop fuel cs = .ok (cs.map Token.Char ++ [Token.End]) := by
  intro cs
  induction cs with
  | nil =>
    intro fuel hf _
    cases fuel with
    | zero => exact absurd hf (by simp)
    | succ fuel => simp [tokenizeLoop]
  | cons c cs ih =>
    intro fuel hf hp
    cases fuel with
    | zero => exact absurd hf (by simp)
    | succ fuel =>
      have hc := hp c (by simp)
      simp only [plainChar, Bool.not_eq_true', Bool.or_eq_false_iff,
        decide_eq_false_iff_not] at hc
      obtain ⟨⟨⟨⟨⟨⟨⟨h1, h2⟩, h3⟩, h4⟩, h5⟩, h6⟩, h7⟩, h8⟩ := hc
      simp [tokenizeLoop, h1, h2, h3, h4, h5, h6, h7, h8,
        ih fuel (Nat.lt_of_succ_lt_succ hf) (fun x hx => hp x (by simp [hx]))]

theorem tryConsumeToken_char_list (m : Token → Bool) (hm1 : ∀ x, m (Token.Char x) = false)
    (hm2 : m Token.End = false) (cs : List Char) :
    tryConsumeToken m (cs.map Token.Char ++ [Token.End])
      = .ok (none, cs.map Token.Char ++ [Token.End]) := by
  cases cs with
  | nil => simp [tryConsumeToken, hm2]
  | cons c cs => simp [tryConsumeToken, hm1]

/-- One parse iteration at the End token: flush the pending fixed value,
consume End and return. -/
theorem parseLoop_end (options : Options) (fuel : Nat) (pending : String) (parts : List Part) :
    parseLoop options (fuel + 1) [Token.End] pending parts
      = .ok (maybeAddPartFromPendingFixedValue pending parts) := by
  simp [parseLoop, tryConsumeToken, tryConsumeRegexpOrWildcard,
    isCharTok, isNameTok, isRegExpTok, isAsteriskTok, isEscapedCharTok,
    isOpenTok, isEndTok]

/-- One parse iteration at a Char token followed by only Char tokens and
the End token: the character joins the pending fixed value. -/
theorem parseLoop_char_cons (options : Options) (fuel : Nat) (c : Char) (cs : List Char)
    (pending : String) (parts : List Part) :
    parseLoop options (fuel + 1) (Token.Char c :: (cs.map Token.Char ++ [Token.End])) pending parts
      = parseLoop options fuel (cs.map Token.Char ++ [Token.End]) (pending.push c) parts := by
  have h1 : tryConsumeToken isCharTok (Token.Char c :: (cs.map Token.Char ++ [Token.End]))
      = .ok (some (Token.Char c), cs.map Token.Char ++ [Token.End]) := by
    simp [tryConsumeToken, isCharTok]
  have h2 := tryConsumeToken_char_list isNameTok (fun x => rfl) rfl cs
  have h3 := tryConsumeToken_char_list isRegExpTok (fun x => rfl) rfl cs
  have h4 := tryConsumeToken_char_list isAsteriskTok (fun x => rfl) rfl cs
  simp [parseLoop, tryConsumeRegexpOrWildcard, h1, h2, h3, h4]

/-- Parsing a token list of plain Char tokens accumulates every character
into the pending fixed value and flushes it once at the End token. -/
theorem parseLoop_chars (options : Options) : ∀ (cs : List Char) (fuel : Nat)
    (pending : String) (parts : List Part), cs.length < fuel →
    parseLoop options fuel (cs.map Token.Char ++ [Token.End]) pending parts
      = .ok (maybeAddPartFromPendingFixedValue (pending ++ String.mk cs) parts) := by
  intro cs
  induction cs with
  | nil =>
    intro fuel pending parts hf
    cases fuel with
    | zero => exact absurd hf (by simp)
    | succ fuel =>
      rw [show (List.map Token.Char [] ++ [Token.End]) = [Token.End] from rfl, parseLoop_end,
        String.append_empty]
  | cons c cs ih =>
    intro fuel pending parts hf
    cases fuel with
    | zero => exact absurd hf (by simp)
    | succ fuel =>
      rw [List.map_cons, List.cons_append, parseLoop_char_cons,
        ih fuel (pending.push c) parts (by simpa using Nat.lt_of_succ_lt_succ hf),
        string_push_mk]

/-- Claim C6 (amended): for every delimiter/prefix configuration, a
pattern containing none of the characters ':', '{', '}', '(', '\\', '*',
'?', '+' compiles successfully to a caret, the escaped literal text and a
dollar. (The original claim did not exclude '}' and '\\'.) -/
theorem literal_only_pattern_compiles (options : Options) (s : String)
    (h : ∀ c ∈ s.data, plainChar c = true) :
    regexp_for_pattern s options = .ok ("^" ++ escape_regexp s ++ "$") := by
  have htok : tokenize s Policy.Strict = .ok (s.data.map Token.Char ++ [Token.End]) :=
    tokenizeLoop_plain s.data (s.data.length + 1) (Nat.lt_succ_self _) h
  have hparse : parse options (s.data.map Token.Char ++ [Token.End])
      = .ok (maybeAddPartFromPendingFixedValue s []) := by
    unfold parse
    rw [parseLoop_chars options s.data _ "" []
      (by simp [List.length_append, Nat.lt_succ_of_le, Nat.le_succ])]
    rw [string_empty_append, string_mk_data]
  by_cases hs : s = ""
  · subst hs
    simp [regexp_for_pattern, htok, hparse]
    rfl
  · simp [regexp_for_pattern, htok, hparse, maybeAddPartFromPendingFixedValue, hs,
      generate_regexp, generateParts, partString, Except.map, String.append_empty]

/-- Witness for the amended claim C6: the pattern "ab/" with delimiter '/'
and prefix '/' compiles to caret, escaped literal, dollar. -/
theorem literal_only_pattern_compiles_witness :
    (∀ c ∈ ("ab/" : String).data, plainChar c = true) ∧
    regexp_for_pattern "ab/" ⟨some '/', some '/', false⟩
      = .ok ("^" ++ escape_regexp "ab/" ++ "$") :=
  ⟨by decide, literal_only_pattern_compiles ⟨some '/', some '/', false⟩ "ab/" (by decide)⟩

/-- Claim C6, counterexample: the pattern "\x7d" contains none of the six
characters the claim excludes (':', '{', '(', '*', '?', '+'), yet
compilation does not succeed: the Close token makes the parser's required
End check fail, aborting via panic!("expected end") instead of returning
caret, escaped literal, dollar. A backslash (also not excluded by the
claim) likewise aborts the tokenizer. -/
theorem close_char_literal_pattern_panics :
    regexp_for_pattern "\x7d" ⟨some '/', some '/', false⟩
      = .error (.panic "expected end") ∧
    tokenize "\\" Policy.Strict = .error (.panic "unimplemented: EscapedChar") :=
  ⟨rfl, rfl⟩


/-- parser.rs, maybe_add_part_from_pending_fixed_value always leaves the
pending fixed value empty - either it already was, or it is cleared while
flushing into a FixedText part. -/

theorem maybeAdd_fst (p : String) (ps : List Part) :
    (maybeAddPartFromPendingFixedValue p ps).1 = "" := by
  unfold maybeAddPartFromPendingFixedValue
  split_ifs with h
  · exact h
  · rfl


/-- Inverting one bind layer of a successful Except computation. -/
theorem bind_ok_elim {e a b : Type} (x : Except e a) (f : a → Except e b) (v : b)
    (h : (x >>= f) = .ok v) : ∃ y, x = .ok y ∧ f y = .ok v := by
  cases x with
  | error e2 => simp only [except_bind_err] at h; exact Except.noConfusion h
  | ok y => exact ⟨y, rfl, by simpa only [except_bind_ok] using h⟩


/-- Any successful run of the parse loop ends in the required-End branch,
whose flush empties the pending fixed value. -/
theorem parseLoop_ok_pending (options : Options) : ∀ (fuel : Nat) (ts : List Token)
    (pending : String) (parts : List Part) (st : String × List Part),
    parseLoop options fuel ts pending parts = .ok st → st.1 = "" := by
  intro fuel
  induction fuel with
  | zero =>
    intro ts pending parts st h
    exact absurd h (by simp [parseLoop])
  | succ fuel ih =>
    intro ts pending parts st h
    rw [parseLoop] at h
    obtain ⟨⟨o1, ts1⟩, h1, h⟩ := bind_ok_elim _ _ _ h
    obtain ⟨⟨o2, ts2⟩, h2, h⟩ := bind_ok_elim _ _ _ h
    obtain ⟨⟨o3, ts3⟩, h3, h⟩ := bind_ok_elim _ _ _ h
    dsimp only at h
    cases hb : (o2.isSome || o3.isSome) with
    | true =>
      rw [hb] at h
      simp only [if_true] at h
      cases o1 with
      | none =>
        simp only [except_pure, except_bind_ok] at h
        obtain ⟨m, hm, h⟩ := bind_ok_elim _ _ _ h
        obtain ⟨r, hr, h⟩ := bind_ok_elim _ _ _ h
        exact ih _ _ _ _ h
      | some t =>
        cases t <;>
          first
            | (simp only [except_bind_err] at h
               exact Except.noConfusion h)
            | (simp only [except_pure, except_bind_ok] at h
               obtain ⟨m, hm, h⟩ := bind_ok_elim _ _ _ h
               obtain ⟨r, hr, h⟩ := bind_ok_elim _ _ _ h
               exact ih _ _ _ _ h)
    | false =>
      rw [hb] at h
      simp only [Bool.false_eq_true, if_false] at h
      cases o1 with
      | some t =>
        simp only [except_pure, except_bind_ok] at h
        cases t with
        | Char v => exact ih _ _ _ _ h
        | EscapedChar v => exact ih _ _ _ _ h
        | _ => exact Except.noConfusion h
      | none =>
        simp only [except_pure, except_bind_ok] at h
        obtain ⟨⟨ft, ts4⟩, h6, h⟩ := bind_ok_elim _ _ _ h
        dsimp only at h
        cases ft with
        | some t =>
          cases t with
          | Char v => exact ih _ _ _ _ h
          | EscapedChar v => exact ih _ _ _ _ h
          | _ => exact Except.noConfusion h
        | none =>
          obtain ⟨⟨ot, ts5⟩, h7, h⟩ := bind_ok_elim _ _ _ h
          dsimp only at h
          cases hop : ot.isSome with
          | true =>
            rw [hop] at h
            simp only [if_true] at h
            obtain ⟨⟨gpfx, ts6⟩, h8, h⟩ := bind_ok_elim _ _ _ h
            obtain ⟨⟨gname, ts7⟩, h9, h⟩ := bind_ok_elim _ _ _ h
            obtain ⟨⟨grw, ts8⟩, h10, h⟩ := bind_ok_elim _ _ _ h
            obtain ⟨⟨gsuffix, ts9⟩, h11, h⟩ := bind_ok_elim _ _ _ h
            obtain ⟨⟨closeTok, ts10⟩, h12, h⟩ := bind_ok_elim _ _ _ h
            dsimp only at h
            cases hcl : closeTok.isNone with
            | true =>
              rw [hcl] at h
              simp only [if_true] at h
              exact Except.noConfusion h
            | false =>
              rw [hcl] at h
              simp only [Bool.false_eq_true, if_false] at h
              obtain ⟨m, hm, h⟩ := bind_ok_elim _ _ _ h
              obtain ⟨r, hr, h⟩ := bind_ok_elim _ _ _ h
              exact ih _ _ _ _ h
          | false =>
            rw [hop] at h
            simp only [Bool.false_eq_true, if_false] at h
            obtain ⟨⟨endTok, ts6⟩, h8, h⟩ := bind_ok_elim _ _ _ h
            dsimp only at h
            cases hend : endTok.isNone with
            | true =>
              rw [hend] at h
              simp only [if_true] at h
              exact Except.noConfusion h
            | false =>
              rw [hend] at h
              simp only [Bool.false_eq_true, if_false] at h
              injection h with h2
              rw [← h2]
              exact maybeAdd_fst pending parts

/-- Claim C10 (confirmed): whenever parse completes successfully, the
pending-fixed-value buffer of the final state is empty - every character
accumulated as pending literal text has been flushed into a FixedText Part
before parse returns. -/
theorem parse_flushes_pending (options : Options) (ts : List Token)
    (st : String × List Part) (h : parse options ts = .ok st) : st.1 = "" :=
  parseLoop_ok_pending options (ts.length + 1) ts "" [] st h

/-- Witness for claim C10: parsing the token list of pattern "a". -/
theorem parse_flushes_pending_witness :
    (parse ⟨some '/', some '/', false⟩ [Token.Char 'a', Token.End]
      = .ok ("", [Part.FixedText "a" none])) ∧
    (("", [Part.FixedText "a" none]) : String × List Part).1 = "" :=
  ⟨rfl, parse_flushes_pending ⟨some '/', some '/', false⟩ [Token.Char 'a', Token.End]
    ("", [Part.FixedText "a" none]) rfl⟩


/-- Whenever an End token is still ahead of the cursor, try_consume_token
with a matcher that rejects End succeeds and leaves an End ahead. -/

theorem tryConsumeToken_end_mem (m : Token → Bool) (hm : m Token.End = false)
    (ts : List Token) (hEnd : Token.End ∈ ts) :
    ∃ o ts2, tryConsumeToken m ts = .ok (o, ts2) ∧ Token.End ∈ ts2 := by
  cases ts with
  | nil => exact absurd hEnd (List.not_mem_nil _)
  | cons t rest =>
    by_cases hmt : m t = true
    · refine ⟨some t, rest, by simp [tryConsumeToken, hmt], ?_⟩
      rcases List.mem_cons.mp hEnd with h | h
      · rw [← h] at hmt
        rw [hm] at hmt
        exact Bool.noConfusion hmt
      · exact h
    · exact ⟨none, t :: rest, by simp [tryConsumeToken, hmt], hEnd⟩


/-- On a nonempty remainder, try_consume_token reads within bounds. -/
theorem tryConsumeToken_nonempty (m : Token → Bool) (ts : List Token) (h : ts ≠ []) :
    ∃ o ts2, tryConsumeToken m ts = .ok (o, ts2) := by
  cases ts with
  | nil => exact absurd rfl h
  | cons t rest =>
    by_cases hm : m t = true
    · exact ⟨some t, rest, by simp [tryConsumeToken, hm]⟩
    · exact ⟨none, t :: rest, by simp [tryConsumeToken, hm]⟩


/-- Whenever an End token is still ahead, try_consume_modifier succeeds
and leaves an End ahead (End is not a modifier token). -/
theorem tryConsumeModifier_end_mem (ts : List Token) (hEnd : Token.End ∈ ts) :
    ∃ o ts2, tryConsumeModifier ts = .ok (o, ts2) ∧ Token.End ∈ ts2 := by
  cases ts with
  | nil => exact absurd hEnd (List.not_mem_nil _)
  | cons t rest =>
    cases t
    all_goals
      first
        | exact ⟨_, _, rfl, hEnd⟩
        | (refine ⟨_, _, rfl, ?_⟩
           rcases List.mem_cons.mp hEnd with h | h
           · exact Token.noConfusion h
           · exact h)


/-- Whenever an End token is still ahead, try_consume_regexp_or_wildcard
succeeds and leaves an End ahead. -/
theorem tryConsumeRegexpOrWildcard_end_mem (nameToken : Option Token) (ts : List Token)
    (hEnd : Token.End ∈ ts) :
    ∃ o ts2, tryConsumeRegexpOrWildcard nameToken ts = .ok (o, ts2) ∧ Token.End ∈ ts2 := by
  obtain ⟨o1, ts1, e1, m1⟩ := tryConsumeToken_end_mem isRegExpTok rfl ts hEnd
  unfold tryConsumeRegexpOrWildcard
  rw [e1]
  simp only [except_bind_ok]
  cases hcond : (nameToken.isNone && o1.isNone) with
  | true =>
    simp only [if_true]
    obtain ⟨o2, ts2, e2, m2⟩ := tryConsumeToken_end_mem isAsteriskTok rfl ts1 m1
    exact ⟨o2, ts2, e2, m2⟩
  | false =>
    simp only [Bool.false_eq_true, if_false]
    exact ⟨o1, ts1, rfl, m1⟩


/-- Whenever an End token is still ahead, consume_text succeeds (it stops
no later than the End token) and leaves an End ahead. -/
theorem consumeText_end_mem : ∀ (ts : List Token), Token.End ∈ ts →
    ∃ s ts2, consumeText ts = .ok (s, ts2) ∧ Token.End ∈ ts2 := by
  intro ts
  induction ts with
  | nil =>
    intro hEnd
    exact absurd hEnd (List.not_mem_nil _)
  | cons t rest ih =>
    intro hEnd
    cases t
    all_goals
      first
        | exact ⟨_, _, rfl, hEnd⟩
        | (rename_i c
           rcases List.mem_cons.mp hEnd with h | h
           · exact Token.noConfusion h
           · obtain ⟨s, ts2, e, m⟩ := ih h
             exact ⟨String.singleton c ++ s, ts2, by simp [consumeText, e], m⟩)


/-- Inverting one bind layer of a failed Except computation. -/
theorem bind_error_elim {e a b : Type} (x : Except e a) (f : a → Except e b) (err : e)
    (h : (x >>= f) = .error err) : x = .error err ∨ ∃ y, x = .ok y ∧ f y = .error err := by
  cases x with
  | error e2 =>
    simp only [except_bind_err] at h
    injection h with h2
    exact Or.inl (by rw [h2])
  | ok y => exact Or.inr ⟨y, rfl, by simpa only [except_bind_ok] using h⟩


theorem regexpValueOf_ne_oob (rw : Option Token) : regexpValueOf rw ≠ .error .oob := by
  cases rw with
  | none => simp [regexpValueOf]
  | some t => cases t <;> simp [regexpValueOf]

theorem partNameOf_ne_oob (name rw : Option Token) : partNameOf name rw ≠ .error .oob := by
  cases name with
  | none =>
    intro h
    unfold partNameOf at h
    split_ifs at h <;> simp at h
  | some t => cases t <;> simp [partNameOf]


/-- add_part touches no token, so it can never fail with an out-of-bounds
access - its only failures are assertion panics. -/
theorem addPart_ne_oob (pending : String) (parts : List Part) (pfx : String)
    (name rw : Option Token) (sfx : String) (mo : Option Modifier) :
    addPart pending parts pfx name rw sfx mo ≠ .error .oob := by
  intro h
  unfold addPart at h
  cases hA : (name.isNone && rw.isNone && mo.isNone) with
  | true =>
    rw [hA] at h
    simp only [if_true] at h
    split_ifs at h <;> simp at h
  | false =>
    rw [hA] at h
    simp only [Bool.false_eq_true, if_false] at h
    cases hma : maybeAddPartFromPendingFixedValue pending parts with
    | mk p1 ps1 =>
    rw [hma] at h
    try dsimp only at h
    cases hB : (name.isNone && rw.isNone) with
    | true =>
      rw [hB] at h
      simp only [if_true] at h
      split_ifs at h <;> simp at h
    | false =>
      rw [hB] at h
      simp only [Bool.false_eq_true, if_false] at h
      rcases bind_error_elim _ _ _ h with h | ⟨rv, hrv, h⟩
      · exact regexpValueOf_ne_oob rw h
      · rcases bind_error_elim _ _ _ h with h | ⟨pn, hpn, h⟩
        · exact partNameOf_ne_oob name rw h
        · split_ifs at h <;> exact Except.noConfusion h


/-- With an End token ahead of the cursor, no iteration of the parse loop
reads out of bounds: every matcher other than the final required-End check
rejects End and so never advances past it, and consuming End itself ends
the loop. -/
theorem parseLoop_ne_oob (options : Options) : ∀ (fuel : Nat) (ts : List Token)
    (pending : String) (parts : List Part), Token.End ∈ ts →
    parseLoop options fuel ts pending parts ≠ .error .oob := by
  intro fuel
  induction fuel with
  | zero =>
    intro ts pending parts hEnd h
    simp [parseLoop] at h
  | succ fuel ih =>
    intro ts pending parts hEnd h
    rw [parseLoop] at h
    obtain ⟨o1, ts1, e1, m1⟩ := tryConsumeToken_end_mem isCharTok rfl ts hEnd
    rw [e1] at h
    simp only [except_bind_ok] at h
    try dsimp only at h
    obtain ⟨o2, ts2, e2, m2⟩ := tryConsumeToken_end_mem isNameTok rfl ts1 m1
    rw [e2] at h
    simp only [except_bind_ok] at h
    try dsimp only at h
    obtain ⟨o3, ts3, e3, m3⟩ := tryConsumeRegexpOrWildcard_end_mem o2 ts2 m2
    rw [e3] at h
    simp only [except_bind_ok] at h
    try dsimp only at h
    cases hb : (o2.isSome || o3.isSome) with
    | true =>
      rw [hb] at h
      simp only [if_true] at h
      obtain ⟨mo, ts4, e4, m4⟩ := tryConsumeModifier_end_mem ts3 m3
      cases o1 with
      | none =>
        simp only [except_pure, except_bind_ok] at h
        rw [e4] at h
        simp only [except_bind_ok] at h
        try dsimp only at h
        rcases bind_error_elim _ _ _ h with h | ⟨r, hr, h⟩
        · exact addPart_ne_oob _ _ _ _ _ _ _ h
        · exact ih ts4 r.1 r.2 m4 h
      | some t =>
        cases t <;> simp only [except_pure, except_bind_ok, except_bind_err] at h
        all_goals try exact (by injection h with h2; exact RunError.noConfusion h2)
        rw [e4] at h
        simp only [except_bind_ok] at h
        try dsimp only at h
        rcases bind_error_elim _ _ _ h with h | ⟨r, hr, h⟩
        · exact addPart_ne_oob _ _ _ _ _ _ _ h
        · exact ih ts4 r.1 r.2 m4 h
    | false =>
      rw [hb] at h
      simp only [Bool.false_eq_true, if_false] at h
      cases o1 with
      | some t =>
        simp only [except_pure, except_bind_ok] at h
        try dsimp only at h
        cases t with
        | Char v => exact ih ts3 (pending.push v) parts m3 h
        | EscapedChar v => exact ih ts3 (pending.push v) parts m3 h
        | _ => injection h with h2; exact RunError.noConfusion h2
      | none =>
        obtain ⟨ft, ts4, e6, m4⟩ := tryConsumeToken_end_mem isEscapedCharTok rfl ts3 m3
        rw [e6] at h
        simp only [except_bind_ok] at h
        try dsimp only at h
        cases ft with
        | some t =>
          cases t with
          | Char v => exact ih ts4 (pending.push v) parts m4 h
          | EscapedChar v => exact ih ts4 (pending.push v) parts m4 h
          | _ => injection h with h2; exact RunError.noConfusion h2
        | none =>
          obtain ⟨ot, ts5, e7, m5⟩ := tryConsumeToken_end_mem isOpenTok rfl ts4 m4
          rw [e7] at h
          simp only [except_bind_ok] at h
          try dsimp only at h
          cases hop : ot.isSome with
          | true =>
            rw [hop] at h
            simp only [if_true] at h
            obtain ⟨s6, ts6, e8, m6⟩ := consumeText_end_mem ts5 m5
            rw [e8] at h
            simp only [except_bind_ok] at h
            try dsimp only at h
            obtain ⟨o7, ts7, e9, m7⟩ := tryConsumeToken_end_mem isNameTok rfl ts6 m6
            rw [e9] at h
            simp only [except_bind_ok] at h
            try dsimp only at h
            obtain ⟨o8, ts8, e10, m8⟩ := tryConsumeRegexpOrWildcard_end_mem o7 ts7 m7
            rw [e10] at h
            simp only [except_bind_ok] at h
            try dsimp only at h
            obtain ⟨s9, ts9, e11, m9⟩ := consumeText_end_mem ts8 m8
            rw [e11] at h
            simp only [except_bind_ok] at h
            try dsimp only at h
            obtain ⟨o10, ts10, e12, m10⟩ := tryConsumeToken_end_mem isCloseTok rfl ts9 m9
            rw [e12] at h
            simp only [except_bind_ok] at h
            try dsimp only at h
            cases hcl : o10.isNone with
            | true =>
              rw [hcl] at h
              simp only [if_true] at h
              injection h with h2
              exact RunError.noConfusion h2
            | false =>
              rw [hcl] at h
              simp only [Bool.false_eq_true, if_false] at h
              obtain ⟨mo, ts11, e13, m11⟩ := tryConsumeModifier_end_mem ts10 m10
              rw [e13] at h
              simp only [except_bind_ok] at h
              try dsimp only at h
              rcases bind_error_elim _ _ _ h with h | ⟨r, hr, h⟩
              · exact addPart_ne_oob _ _ _ _ _ _ _ h
              · exact ih ts11 r.1 r.2 m11 h
          | false =>
            rw [hop] at h
            simp only [Bool.false_eq_true, if_false] at h
            obtain ⟨o6, ts6, e8⟩ := tryConsumeToken_nonempty isEndTok ts5 (List.ne_nil_of_mem m5)
            rw [e8] at h
            simp only [except_bind_ok] at h
            try dsimp only at h
            cases hend : o6.isNone with
            | true =>
              rw [hend] at h
              simp only [if_true] at h
              injection h with h2
              exact RunError.noConfusion h2
            | false =>
              rw [hend] at h
              simp only [Bool.false_eq_true, if_false] at h
              exact Except.noConfusion h

/-- Claim C9 (confirmed): for every token sequence whose last element is
the End token (as produced by a successful tokenize), every token access
performed during parse - in try_consume_token, try_consume_modifier and
consume_text - is within bounds: in this embedding, where the cursor is
the still-unconsumed suffix of the token list and reading past the end is
the distinguished oob outcome, parse never returns oob, i.e. the cursor
never advances past the End token. -/
theorem parse_accesses_in_bounds (options : Options) (ts : List Token)
    (h : ts.getLast? = some Token.End) : parse options ts ≠ .error .oob :=
  parseLoop_ne_oob options (ts.length + 1) ts "" [] (List.mem_of_mem_getLast? h)

/-- Witness for claim C9: the token list of pattern "x". -/
theorem parse_accesses_in_bounds_witness :
    ([Token.Char 'x', Token.End] : List Token).getLast? = some Token.End ∧
    parse ⟨some '/', some '/', false⟩ [Token.Char 'x', Token.End] ≠ .error .oob :=
  ⟨rfl, parse_accesses_in_bounds ⟨some '/', some '/', false⟩ [Token.Char 'x', Token.End] rfl⟩

end UrlPattern
